import Mathlib

set_option maxHeartbeats 1000000

set_option maxRecDepth 4000

/-!
Shallow embedding of the TinyWebServer core (buffer, HTTP request parser,
HTTP response builder, SQL connection pool, log file rolling) together with
proofs of the specified properties.

Byte strings are modelled as `List Char` (one `Char` per byte of the C++
`std::string` / `char` array); machine indices are `Nat`.
-/

/-- Model of `Buffer` from `buffer.cpp`: the underlying `std::vector<char>`
as a list of bytes plus the cursors `readPos_` and `writePos_`. -/
structure Buffer where
  data : List Char
  readPos : Nat
  writePos : Nat
deriving DecidableEq, Repr

/-- `Buffer::WritableBytes`: `buffer_.size() - writePos_`. -/
def Buffer.WritableBytes (b : Buffer) : Nat := b.data.length - b.writePos

/-- `Buffer::ReadableBytes`: `writePos_ - readPos_`. -/
def Buffer.ReadableBytes (b : Buffer) : Nat := b.writePos - b.readPos

/-- `Buffer::PrependableBytes`: `readPos_`. -/
def Buffer.PrependableBytes (b : Buffer) : Nat := b.readPos

/-- The readable region `[readPos_, writePos_)` of the storage (the bytes
 `Peek()` points at, `ReadableBytes()` many). -/
def Buffer.readable (b : Buffer) : List Char :=
  (b.data.drop b.readPos).take (b.writePos - b.readPos)

/-- `Buffer::Retrieve(len)`: advance `readPos_` by `len`; when the cursors
meet, both are reset to 0. -/
def Buffer.Retrieve (len : Nat) (b : Buffer) : Buffer :=
  if b.readPos + len = b.writePos then { b with readPos := 0, writePos := 0 }
  else { b with readPos := b.readPos + len }

/-- `Buffer::RetrieveUntil(end)`: `Retrieve(end - Peek())`, with `end` given
as an absolute index into the storage. -/
def Buffer.RetrieveUntil (e : Nat) (b : Buffer) : Buffer :=
  b.Retrieve (e - b.readPos)

/-- `Buffer::RetrieveAll`: reset both cursors to 0. -/
def Buffer.RetrieveAll (b : Buffer) : Buffer :=
  { b with readPos := 0, writePos := 0 }

/-- `Buffer::RetrieveAllToStr`: copy the readable bytes out, then clear. -/
def Buffer.RetrieveAllToStr (b : Buffer) : List Char × Buffer :=
  (b.readable, b.RetrieveAll)

/-- `Buffer::HasWritten(len)`: `writePos_ += len`. -/
def Buffer.HasWritten (len : Nat) (b : Buffer) : Buffer :=
  { b with writePos := b.writePos + len }

/-- `std::vector<char>::resize(n)`: truncate or extend with zero bytes. -/
def listResize (l : List Char) (n : Nat) : List Char :=
  l.take n ++ List.replicate (n - l.length) (Char.ofNat 0)

/-- `Buffer::MakeSpace_(len)`: if even reclaiming the prepend space is not
enough, `resize(writePos_ + len + 1)`; otherwise move the readable bytes
`[readPos_, writePos_)` to offset 0. -/
def Buffer.MakeSpace_ (len : Nat) (b : Buffer) : Buffer :=
  if b.WritableBytes + b.PrependableBytes < len then
    { b with data := listResize b.data (b.writePos + len + 1) }
  else
    { data := (b.data.drop b.readPos).take (b.writePos - b.readPos) ++
        b.data.drop (b.writePos - b.readPos),
      readPos := 0,
      writePos := b.writePos - b.readPos }

/-- `Buffer::EnsureWriteable(len)`. -/
def Buffer.EnsureWriteable (len : Nat) (b : Buffer) : Buffer :=
  if b.WritableBytes < len then b.MakeSpace_ len else b

/-- `Buffer::Append(data, len)`: ensure space, copy at `BeginWrite()`,
advance `writePos_`. -/
def Buffer.Append (s : List Char) (b : Buffer) : Buffer :=
  let b1 := b.EnsureWriteable s.length
  { b1 with
    data := b1.data.take b1.writePos ++ s ++ b1.data.drop (b1.writePos + s.length),
    writePos := b1.writePos + s.length }

/-- `Buffer::ReadFd`: one `readv` over the writable tail and a 64 KiB stack
scratch. `bs` are the bytes the kernel delivered (in order): the first
`WritableBytes()` of them land in the tail, the overflow in the scratch is
then `Append`ed. -/
def Buffer.ReadFd (bs : List Char) (b : Buffer) : Buffer :=
  let writable := b.WritableBytes
  if bs.length ≤ writable then
    { b with
      data := b.data.take b.writePos ++ bs ++ b.data.drop (b.writePos + bs.length),
      writePos := b.writePos + bs.length }
  else
    Buffer.Append (bs.drop writable)
      { b with
        data := b.data.take b.writePos ++ bs.take writable,
        writePos := b.data.length }

/-- `Buffer::WriteFd` success path: the kernel accepted `n ≤ ReadableBytes()`
bytes; `readPos_ += n`, resetting both cursors when they meet. -/
def Buffer.WriteFd (n : Nat) (b : Buffer) : Buffer :=
  if b.readPos + n = b.writePos then { b with readPos := 0, writePos := 0 }
  else { b with readPos := b.readPos + n }

/-- The buffer cursor invariant `0 ≤ readPos_ ≤ writePos_ ≤ buffer_.size()`. -/
def Buffer.wf (b : Buffer) : Prop :=
  b.readPos ≤ b.writePos ∧ b.writePos ≤ b.data.length

instance (b : Buffer) : Decidable b.wf := by
  unfold Buffer.wf
  exact inferInstance

/-- Parser states from `httprequest.h`. -/
inductive PARSE_STATE where
  | REQUEST_LINE
  | HEADERS
  | BODY
  | FINISH
deriving DecidableEq, Repr

/-- Model of `HttpRequest` from `httprequest.h`: parser state plus the parsed
fields. The C++ `unordered_map`s are modelled as association lists (only
lookup, insert and overwrite are used). -/
structure HttpRequest where
  state : PARSE_STATE
  method : List Char
  path : List Char
  version : List Char
  body : List Char
  header : List (List Char × List Char)
  post : List (List Char × List Char)
deriving DecidableEq, Repr

/-- `HttpRequest::Init`. -/
def HttpRequest.Init : HttpRequest :=
  ⟨PARSE_STATE.REQUEST_LINE, [], [], [], [], [], []⟩

/-- Map lookup (`find` / `count`). -/
def alGet? {β : Type} : List (List Char × β) → List Char → Option β
  | [], _ => none
  | (k, v) :: rest, key => if k = key then some v else alGet? rest key

/-- `operator[]` followed by assignment: overwrite or append. -/
def alSet : List (List Char × List Char) → List Char → List Char →
    List (List Char × List Char)
  | [], key, val => [(key, val)]
  | (k, v) :: rest, key, val =>
    if k = key then (key, val) :: rest else (k, v) :: alSet rest key val

/-- `operator[]` used as an rvalue: returns the mapped value, default
constructing (and inserting) an empty string when the key is absent. -/
def alGetIns (m : List (List Char × List Char)) (key : List Char) :
    List Char × List (List Char × List Char) :=
  match alGet? m key with
  | some v => (v, m)
  | none => ([], m ++ [(key, [])])

/-- Split on a separator character (used for the request-line regex
`^([^ ]*) ([^ ]*) HTTP/([^ ]*)$`: the groups exclude the separator, so the
regex matches exactly when the line splits into three space-free parts whose
third starts with `HTTP/`). -/
def splitOnChar (c : Char) : List Char → List (List Char)
  | [] => [[]]
  | x :: xs =>
    match splitOnChar c xs with
    | [] => [[]]
    | y :: ys => if x = c then [] :: y :: ys else (x :: y) :: ys

/-- The recognised last path segments (`HttpRequest::DEFAULT_HTML`). -/
def DEFAULT_HTML : List (List Char) :=
  ["/index".data, "/register".data, "/login".data, "/welcome".data,
    "/video".data, "/picture".data, "/favicon.ico".data]

/-- Tags of the form-handling pages (`HttpRequest::DEFAULT_HTML_TAG`). -/
def DEFAULT_HTML_TAG : List (List Char × Nat) :=
  [("/register.html".data, 0), ("/login.html".data, 1)]

/-- `std::string::find_last_of('/')`. -/
def lastIndexOfSlash (l : List Char) : Option Nat :=
  match (l.reverse).findIdx? (fun c => c = '/') with
  | none => none
  | some k => some (l.length - 1 - k)

/-- `HttpRequest::ParsePath_`, restricted to the throw-free case: when the
path holds no `/` at all, the C++ `path_.substr(find_last_of('/'))` is
`substr(npos)` and throws `std::out_of_range`. `ParsePathE` below models
that exception as `none`; this total variant keeps the slash-free case as a
no-op and agrees with `ParsePathE` whenever no throw occurs
(`ParsePathE_sound`). It backs the concrete-input theorems, whose paths all
contain `/`. -/
def HttpRequest.ParsePath_ (req : HttpRequest) : HttpRequest :=
  if req.path = "/".data then { req with path := "/index.html".data }
  else
    match lastIndexOfSlash req.path with
    | none => req
    | some k =>
      if req.path.drop k ∈ DEFAULT_HTML then
        { req with path := req.path ++ ".html".data }
      else req

/-- `HttpRequest::ParseRequestLine_`: regex match assigns the three fields,
then only `GET`/`POST` are accepted (and the path is normalised). -/
def HttpRequest.ParseRequestLine_ (req : HttpRequest) (line : List Char) :
    Bool × HttpRequest :=
  match splitOnChar ' ' line with
  | [m, p, r] =>
    if r.take 5 = "HTTP/".data then
      let req1 := { req with method := m, path := p, version := r.drop 5 }
      if m = "GET".data ∨ m = "POST".data then (true, req1.ParsePath_)
      else (false, req1)
    else (false, req)
  | _ => (false, req)

/-- Split at the first `:` (the `[^:]*` group of the header regex). -/
def splitAtFirstColon : List Char → Option (List Char × List Char)
  | [] => none
  | c :: rest =>
    if c = ':' then some ([], rest)
    else
      match splitAtFirstColon rest with
      | none => none
      | some (k, v) => some (c :: k, v)

/-- ECMAScript `.` matches neither `\r` nor `\n`. -/
def noLineTerm (l : List Char) : Bool :=
  l.all (fun c => c ≠ '\r' ∧ c ≠ '\n')

/-- The header regex `^([^:]*): ?(.*)$`: a line matches exactly when it has a
colon and everything after the first colon is free of line terminators; the
value drops one optional space after the colon. -/
def headerMatch (line : List Char) : Option (List Char × List Char) :=
  match splitAtFirstColon line with
  | none => none
  | some (k, rest) =>
    if noLineTerm rest then
      some (k, if rest.head? = some ' ' then rest.tail else rest)
    else none

/-- `HttpRequest::ParseHeader_`: store the pair on a regex match, silently do
nothing otherwise. -/
def HttpRequest.ParseHeader_ (req : HttpRequest) (line : List Char) :
    HttpRequest :=
  match headerMatch line with
  | some (k, v) => { req with header := alSet req.header k v }
  | none => req

/-- `HttpRequest::ConverHex`. -/
def ConverHex (ch : Char) : Int :=
  if '0' ≤ ch ∧ ch ≤ '9' then (ch.toNat : Int) - ('0'.toNat : Int)
  else if 'a' ≤ ch ∧ ch ≤ 'f' then (ch.toNat : Int) - ('a'.toNat : Int) + 10
  else if 'A' ≤ ch ∧ ch ≤ 'F' then (ch.toNat : Int) - ('A'.toNat : Int) + 10
  else -1

/-- `body_.substr(j, i - j)` (std::string::substr clamps the count). -/
def substrIJ (body : List Char) (j i : Nat) : List Char :=
  (body.drop j).take (i - j)

/-- The `while (i < n)` loop of `HttpRequest::ParseFromUrlencoded_`, with the
in-place mutation of `body_` modelled by `List.set` (C++ `operator%=`-style
out-of-range accesses read as `\0` and write as no-ops; the claims only
exercise in-range escapes). One fuel unit per iteration; `i` grows by at
least 1 each round so `n + 1` fuel always suffices. -/
def ParseUrlLoop : Nat → List Char → Nat → Nat → List Char →
    List (List Char × List Char) →
    List Char × Nat × Nat × List Char × List (List Char × List Char)
  | 0, body, i, j, key, post => (body, i, j, key, post)
  | fuel + 1, body, i, j, key, post =>
    if i < body.length then
      let ch := body.getD i ' '
      if ch = '=' then
        ParseUrlLoop fuel body (i + 1) (i + 1) (substrIJ body j i) post
      else if ch = '+' then
        ParseUrlLoop fuel (body.set i ' ') (i + 1) j key post
      else if ch = '%' then
        let num : Int := ConverHex (body.getD (i + 1) (Char.ofNat 0)) * 16 +
          ConverHex (body.getD (i + 2) (Char.ofNat 0))
        let b1 := body.set (i + 2) (Char.ofNat (num.tmod 10 + 48).toNat)
        let b2 := b1.set (i + 1) (Char.ofNat (num.tdiv 10 + 48).toNat)
        ParseUrlLoop fuel b2 (i + 3) j key post
      else if ch = '&' then
        ParseUrlLoop fuel body (i + 1) (i + 1) [] (alSet post key (substrIJ body j i))
      else
        ParseUrlLoop fuel body (i + 1) j key post
    else (body, i, j, key, post)

/-- `HttpRequest::ParseFromUrlencoded_`. -/
def HttpRequest.ParseFromUrlencoded_ (req : HttpRequest) : HttpRequest :=
  if req.body = [] then req
  else
    match ParseUrlLoop (req.body.length + 1) req.body 0 0 [] req.post with
    | (body, i, j, key, post) =>
      if key = [] ∧ j < i then
        { req with body := body, post := alSet post (substrIJ body j i) [] }
      else if key ≠ [] ∧ j < i then
        { req with body := body, post := alSet post key (substrIJ body j i) }
      else
        { req with body := body, post := post }

/-- `HttpRequest::ParsePost_`, with `UserVerify` (a MySQL round trip)
abstracted as the oracle `verify name pwd isLogin`. The `&&` in the source
short-circuits, so `header_["Content-Type"]` (which default-inserts) is only
evaluated for POST requests. -/
def HttpRequest.ParsePost_ (verify : List Char → List Char → Bool → Bool)
    (req : HttpRequest) : HttpRequest :=
  if req.method = "POST".data then
    match alGetIns req.header "Content-Type".data with
    | (ct, h1) =>
      let req1 := { req with header := h1 }
      if ct = "application/x-www-form-urlencoded".data then
        let req2 := req1.ParseFromUrlencoded_
        match alGet? DEFAULT_HTML_TAG req2.path with
        | some tag =>
          if tag = 0 ∨ tag = 1 then
            match alGetIns req2.post "username".data with
            | (u, p1) =>
              match alGetIns p1 "password".data with
              | (pw, p2) =>
                let req3 := { req2 with post := p2 }
                if verify u pw (tag == 1) then
                  { req3 with path := "/welcome.html".data }
                else
                  { req3 with path := "/error.html".data }
          else req2
        | none => req2
      else req1
  else req

/-- `HttpRequest::ParseBody_`: the whole (CRLF-framed) line becomes the body,
then `ParsePost_` runs. -/
def HttpRequest.ParseBody_ (verify : List Char → List Char → Bool → Bool)
    (req : HttpRequest) (line : List Char) : HttpRequest :=
  HttpRequest.ParsePost_ verify { req with body := line }

/-- `std::search` for the first CRLF in the readable region. -/
def findCRLF : List Char → Option Nat
  | [] => none
  | '\r' :: '\n' :: _ => some 0
  | _ :: rest => (findCRLF rest).map (fun k => k + 1)

/-- The `while` loop of `HttpRequest::parse`, one fuel unit per iteration.
Each iteration either returns or consumes `idx + 2 ≥ 2` readable bytes, so
`ReadableBytes + 1` fuel always suffices. -/
def parseLoop (verify : List Char → List Char → Bool → Bool) :
    Nat → HttpRequest → Buffer → Bool × HttpRequest × Buffer
  | 0, req, buff => (true, req, buff)
  | fuel + 1, req, buff =>
    if buff.ReadableBytes = 0 ∨ req.state = PARSE_STATE.FINISH then
      (true, req, buff)
    else
      match findCRLF buff.readable with
      | none => (true, req, buff)
      | some idx =>
        let line := buff.readable.take idx
        let buff1 := buff.Retrieve (idx + 2)
        match req.state with
        | PARSE_STATE.REQUEST_LINE =>
          match req.ParseRequestLine_ line with
          | (ok, req1) =>
            if ok then
              parseLoop verify fuel { req1 with state := PARSE_STATE.HEADERS } buff1
            else (false, req1, buff1)
        | PARSE_STATE.HEADERS =>
          if line = [] then
            if (alGet? req.header "Content-Length".data).isSome then
              parseLoop verify fuel { req with state := PARSE_STATE.BODY } buff1
            else
              parseLoop verify fuel { req with state := PARSE_STATE.FINISH } buff1
          else
            parseLoop verify fuel (req.ParseHeader_ line) buff1
        | PARSE_STATE.BODY =>
          parseLoop verify fuel
            { req.ParseBody_ verify line with state := PARSE_STATE.FINISH } buff1
        | PARSE_STATE.FINISH => (true, req, buff)

/-- `HttpRequest::parse`. -/
def HttpRequest.parse (verify : List Char → List Char → Bool → Bool)
    (req : HttpRequest) (buff : Buffer) : Bool × HttpRequest × Buffer :=
  if buff.ReadableBytes = 0 then (false, req, buff)
  else parseLoop verify (buff.ReadableBytes + 1) req buff

/-- Exception-aware `HttpRequest::ParsePath_`: `none` is the
`std::out_of_range` thrown by `path_.substr(npos)` when the path holds no
`/`. -/
def HttpRequest.ParsePathE (req : HttpRequest) : Option HttpRequest :=
  if req.path = "/".data then some { req with path := "/index.html".data }
  else
    match lastIndexOfSlash req.path with
    | none => none
    | some k =>
      if req.path.drop k ∈ DEFAULT_HTML then
        some { req with path := req.path ++ ".html".data }
      else some req

/-- Exception-aware `HttpRequest::ParseRequestLine_`: `none` propagates the
`ParsePath_` throw, which is reachable only after the regex matched and the
method was accepted. -/
def HttpRequest.ParseRequestLineE (req : HttpRequest) (line : List Char) :
    Option (Bool × HttpRequest) :=
  match splitOnChar ' ' line with
  | [m, p, r] =>
    if r.take 5 = "HTTP/".data then
      let req1 := { req with method := m, path := p, version := r.drop 5 }
      if m = "GET".data ∨ m = "POST".data then
        match req1.ParsePathE with
        | none => none
        | some req2 => some (true, req2)
      else some (false, req1)
    else some (false, req)
  | _ => some (false, req)

/-- Exception-aware variant of `parseLoop`: `none` is the
`std::out_of_range` escaping `HttpRequest::parse`. Only the REQUEST_LINE
step can throw; the other states mirror `parseLoop` wrapped in `some`. -/
def parseLoopE (verify : List Char → List Char → Bool → Bool) :
    Nat → HttpRequest → Buffer → Option (Bool × HttpRequest × Buffer)
  | 0, req, buff => some (true, req, buff)
  | fuel + 1, req, buff =>
    if buff.ReadableBytes = 0 ∨ req.state = PARSE_STATE.FINISH then
      some (true, req, buff)
    else
      match findCRLF buff.readable with
      | none => some (true, req, buff)
      | some idx =>
        let line := buff.readable.take idx
        let buff1 := buff.Retrieve (idx + 2)
        match req.state with
        | PARSE_STATE.REQUEST_LINE =>
          match req.ParseRequestLineE line with
          | none => none
          | some (ok, req1) =>
            if ok then
              parseLoopE verify fuel { req1 with state := PARSE_STATE.HEADERS }
                buff1
            else some (false, req1, buff1)
        | PARSE_STATE.HEADERS =>
          if line = [] then
            if (alGet? req.header "Content-Length".data).isSome then
              parseLoopE verify fuel { req with state := PARSE_STATE.BODY } buff1
            else
              parseLoopE verify fuel { req with state := PARSE_STATE.FINISH }
                buff1
          else
            parseLoopE verify fuel (req.ParseHeader_ line) buff1
        | PARSE_STATE.BODY =>
          parseLoopE verify fuel
            { req.ParseBody_ verify line with state := PARSE_STATE.FINISH } buff1
        | PARSE_STATE.FINISH => some (true, req, buff)

/-- Exception-aware `HttpRequest::parse`: `some` of the returned value, or
`none` when `std::out_of_range` propagates out of the call (the call then
returns neither true nor false). -/
def HttpRequest.parseE (verify : List Char → List Char → Bool → Bool)
    (req : HttpRequest) (buff : Buffer) :
    Option (Bool × HttpRequest × Buffer) :=
  if buff.ReadableBytes = 0 then some (false, req, buff)
  else parseLoopE verify (buff.ReadableBytes + 1) req buff

/-- A buffer holding exactly the bytes of `s`. -/
def strBuf (s : String) : Buffer := ⟨s.data, 0, s.data.length⟩

/-- Verification oracle that always fails (no database). -/
def noVerify : List Char → List Char → Bool → Bool := fun _ _ _ => false

/-- The two `stat` facts `HttpResponse::MakeResponse` inspects: `S_ISDIR` and
the world-readable bit `S_IROTH`. -/
structure FileStat where
  isDir : Bool
  othRead : Bool
deriving DecidableEq, Repr

/-- `HttpResponse::CODE_PATH`: canonical error page per status code. -/
def CODE_PATH (code : Int) : Option String :=
  if code = 400 then some "/400.html"
  else if code = 403 then some "/403.html"
  else if code = 404 then some "/404.html"
  else if code = 500 then some "/500.html"
  else none

/-- The status-selection cascade at the top of `HttpResponse::MakeResponse`:
`stat(srcDir+path)` failing or naming a directory gives 404, a file that is
not world-readable gives 403, and an initial code of −1 becomes 200. The
filesystem is the oracle `fs` mapping an absolute path to its stat result. -/
def statCode (fs : String → Option FileStat) (srcDir path : String)
    (code : Int) : Int :=
  match fs (srcDir ++ path) with
  | none => 404
  | some st =>
    if st.isDir then 404
    else if st.othRead = false then 403
    else if code = -1 then 200
    else code

/-- `HttpResponse::ErrorHtml_`: remap the path to the canonical error page for
the codes in `CODE_PATH`, and fall back to 404 when that page is missing. -/
def ErrorHtml_ (fs : String → Option FileStat) (srcDir : String) (code : Int)
    (path : String) : Int × String :=
  match CODE_PATH code with
  | some p => if fs (srcDir ++ p) = none then (404, p) else (code, p)
  | none => (code, path)

/-- The code/path part of `HttpResponse::MakeResponse` (status cascade, then
`ErrorHtml_`). -/
def MakeResponse (fs : String → Option FileStat) (srcDir path : String)
    (code : Int) : Int × String :=
  ErrorHtml_ fs srcDir (statCode fs srcDir path code) path

/-- Model of `SqlConnPool` from `sqlconnpool.cpp`: the queue of `MYSQL*`
values (as machine words, `0` = `nullptr`) plus the counting semaphore. -/
structure SqlConnPool where
  connQue : List Nat
  semId : Nat
deriving DecidableEq, Repr

/-- `SqlConnPool::Init` with the given already-created connections:
pushes them all and initialises the semaphore to the pool size. -/
def SqlConnPool.Init (conns : List Nat) : SqlConnPool :=
  ⟨conns, conns.length⟩

/-- `SqlConnPool::GetConn`: on an empty queue it logs a warning and returns
`nullptr` immediately (no semaphore wait); otherwise `sem_wait` then pop the
front under the mutex. -/
def SqlConnPool.GetConn (p : SqlConnPool) : Nat × SqlConnPool :=
  match p.connQue with
  | [] => (0, p)
  | c :: rest => (c, ⟨rest, p.semId - 1⟩)

/-- `SqlConnPool::FreeConn`: push under the mutex, post the semaphore. -/
def SqlConnPool.FreeConn (conn : Nat) (p : SqlConnPool) : SqlConnPool :=
  ⟨p.connQue ++ [conn], p.semId + 1⟩

/-- Zero-padded decimal rendering (`snprintf` `%0wd` for non-negative
values). -/
def natPad (w n : Nat) : String :=
  String.mk (List.replicate (w - (toString n).length) '0') ++ toString n

/-- The `tail` buffer built in `Log::write` before rolling:
`"%s.%04d_%02d_%02d%s"` applied to `path_`, `toDay_ / 10000`,
`toDay_ % 10000 / 100`, `toDay_ % 100` and `suffix_`, where `toDay_` holds
only the day of month. -/
def logTail (path suffix : String) (toDay : Nat) : String :=
  path ++ "." ++ natPad 4 (toDay / 10000) ++ "_" ++
    natPad 2 (toDay % 10000 / 100) ++ "_" ++ natPad 2 (toDay % 100) ++ suffix

/-- The new file name opened by the roll branch of `Log::write`:
`"%s/%s%s"` (day change) or `"%s/%s.%d%s"` (line-cap roll). -/
def logNewFile (path suffix : String) (toDay mday lineCount maxLines : Nat) :
    String :=
  if toDay ≠ mday then path ++ "/" ++ logTail path suffix toDay ++ suffix
  else path ++ "/" ++ logTail path suffix toDay ++ "." ++
    toString (lineCount / maxLines) ++ suffix

/-- The roll condition in `Log::write`. -/
def logRollNeeded (toDay mday lineCount maxLines : Nat) : Bool :=
  toDay ≠ mday || (lineCount ≠ 0 && lineCount % maxLines = 0)

/-- C1 failing input: POST with `Content-Length: 5` whose buffered body bytes
are `ab\r\ncd\r\n`. -/
def c1Input : Buffer :=
  strBuf "POST /i HTTP/1.1\r\nContent-Length: 5\r\n\r\nab\r\ncd\r\n"

/-- C7 input: a well-formed request line followed by a non-empty header line
with no colon. -/
def c7Input : Buffer := strBuf "GET / HTTP/1.1\r\nnocolonline\r\n\r\n"

/-- C10 input: a request cut off before the blank line that ends the
headers. -/
def c10Input : Buffer := strBuf "GET / HTTP/1.1\r\nHost: x\r\n"

/-- C10 throwing input: the request line matches the regex and `GET` is
accepted, but the path `x` holds no `/`, so `ParsePath_` throws. -/
def c10ThrowInput : Buffer := strBuf "GET x HTTP/1.1\r\n\r\n"

/-- C5 failing input: a POST form body holding the escape `%41` (= `A`). -/
def c5Req : HttpRequest :=
  { HttpRequest.Init with
    method := "POST".data,
    body := "k=a%41b".data }

/-- C5 auxiliary input exercising the `&` split and the `+` → space
rewrite. -/
def c5ReqPlus : HttpRequest :=
  { HttpRequest.Init with
    method := "POST".data,
    body := "x=1+2&y=3".data }

theorem Buffer.readable_mk (d : List Char) (r w : Nat) :
    (Buffer.mk d r w).readable = (d.drop r).take (w - r) := rfl

theorem Buffer.wf_mk (d : List Char) (r w : Nat) :
    (Buffer.mk d r w).wf ↔ r ≤ w ∧ w ≤ d.length := Iff.rfl

theorem Buffer.readable_length (b : Buffer) (h : b.wf) :
    b.readable.length = b.ReadableBytes := by
  obtain ⟨h1, h2⟩ := h
  simp [Buffer.readable, Buffer.ReadableBytes]
  omega

theorem listResize_length (l : List Char) (n : Nat) : (listResize l n).length = n := by
  simp [listResize]
  omega

theorem Buffer.MakeSpace_spec (b : Buffer) (len : Nat) (h : b.wf) :
    (b.MakeSpace_ len).wf ∧ (b.MakeSpace_ len).readable = b.readable ∧
      len ≤ (b.MakeSpace_ len).WritableBytes ∧
      (b.MakeSpace_ len).ReadableBytes = b.ReadableBytes := by
  obtain ⟨h1, h2⟩ := h
  unfold Buffer.MakeSpace_
  split
  case isTrue hc =>
    unfold Buffer.WritableBytes Buffer.PrependableBytes at hc
    have hlen : b.data.length < b.writePos + len + 1 := by omega
    have hres : listResize b.data (b.writePos + len + 1) =
        b.data ++ List.replicate (b.writePos + len + 1 - b.data.length) (Char.ofNat 0) := by
      unfold listResize
      rw [List.take_of_length_le (by omega)]
    refine ⟨⟨?_, ?_⟩, ?_, ?_, ?_⟩
    · dsimp only
      exact h1
    · dsimp only
      rw [listResize_length]
      omega
    · dsimp only [Buffer.readable]
      rw [hres, List.drop_append_of_le_length (by omega),
        List.take_append_of_le_length (by simp; omega)]
    · dsimp only [Buffer.WritableBytes]
      rw [listResize_length]
      omega
    · dsimp only [Buffer.ReadableBytes]
  case isFalse hc =>
    unfold Buffer.WritableBytes Buffer.PrependableBytes at hc
    have hL : ((b.data.drop b.readPos).take (b.writePos - b.readPos) ++
        b.data.drop (b.writePos - b.readPos)).length = b.data.length := by
      simp
      omega
    refine ⟨⟨?_, ?_⟩, ?_, ?_, ?_⟩
    · dsimp only
      omega
    · dsimp only
      rw [hL]
      omega
    · dsimp only [Buffer.readable]
      rw [Nat.sub_zero, List.drop_zero,
        List.take_append_of_le_length (by simp; omega), List.take_take]
      simp
    · dsimp only [Buffer.WritableBytes]
      rw [hL]
      omega
    · dsimp only [Buffer.ReadableBytes]
      omega

theorem Buffer.EnsureWriteable_spec (b : Buffer) (len : Nat) (h : b.wf) :
    (b.EnsureWriteable len).wf ∧ (b.EnsureWriteable len).readable = b.readable ∧
      len ≤ (b.EnsureWriteable len).WritableBytes ∧
      (b.EnsureWriteable len).ReadableBytes = b.ReadableBytes := by
  unfold Buffer.EnsureWriteable
  split
  case isTrue hc =>
    have := Buffer.MakeSpace_spec b len h
    exact ⟨this.1, this.2.1, this.2.2.1, this.2.2.2⟩
  case isFalse hc =>
    exact ⟨h, rfl, by omega, rfl⟩

/-- Writing `s` at `BeginWrite()` (positions `[w, w + |s|)`) of a storage that
has room for it, seen on the raw list. -/
theorem writeAt_readable (d : List Char) (r w : Nat) (s : List Char)
    (h1 : r ≤ w) (h2 : w + s.length ≤ d.length) :
    ((d.take w ++ s ++ d.drop (w + s.length)).drop r).take (w + s.length - r) =
      (d.drop r).take (w - r) ++ s ∧
    (d.take w ++ s ++ d.drop (w + s.length)).length = d.length := by
  have hw : w ≤ d.length := by omega
  have htw : (d.take w).length = w := by simp; omega
  constructor
  · rw [List.append_assoc, List.drop_append_of_le_length (by omega)]
    have hdt : (d.take w).drop r = (d.drop r).take (w - r) := by
      rw [List.drop_take]
    have hlen : ((d.take w).drop r).length = w - r := by simp; omega
    rw [List.take_append_eq_append_take, hlen]
    have : w + s.length - r - (w - r) = s.length := by omega
    rw [this, List.take_of_length_le (by omega), hdt,
      List.take_append_of_le_length (by omega), List.take_length]
  · simp
    omega

theorem Buffer.Append_spec (b : Buffer) (s : List Char) (h : b.wf) :
    (b.Append s).wf ∧ (b.Append s).readable = b.readable ++ s ∧
      (b.Append s).ReadableBytes = b.ReadableBytes + s.length := by
  obtain ⟨hwf1, hread1, hroom1, hrb1⟩ := Buffer.EnsureWriteable_spec b s.length h
  set b1 := b.EnsureWriteable s.length with hb1
  obtain ⟨h1, h2⟩ := hwf1
  have hroom : b1.writePos + s.length ≤ b1.data.length := by
    unfold Buffer.WritableBytes at hroom1
    omega
  obtain ⟨hwa, hwl⟩ := writeAt_readable b1.data b1.readPos b1.writePos s h1 hroom
  have hAeq : b.Append s = Buffer.mk
      (b1.data.take b1.writePos ++ s ++ b1.data.drop (b1.writePos + s.length))
      b1.readPos (b1.writePos + s.length) := by
    rw [hb1]
    rfl
  rw [hAeq]
  refine ⟨⟨?_, ?_⟩, ?_, ?_⟩
  · dsimp only
    omega
  · dsimp only
    rw [hwl]
    omega
  · rw [Buffer.readable_mk]
    have harith : b1.writePos + s.length - b1.readPos = b1.writePos + s.length - b1.readPos := rfl
    rw [hwa]
    have hb1read : (b1.data.drop b1.readPos).take (b1.writePos - b1.readPos) = b1.readable := rfl
    rw [hb1read, hread1]
  · dsimp only [Buffer.ReadableBytes] at hrb1 ⊢
    omega

theorem Buffer.ReadFd_spec (b : Buffer) (bs : List Char) (h : b.wf) :
    (b.ReadFd bs).wf ∧ (b.ReadFd bs).readable = b.readable ++ bs ∧
      (b.ReadFd bs).ReadableBytes = b.ReadableBytes + bs.length := by
  obtain ⟨h1, h2⟩ := h
  have hstep : b.ReadFd bs =
      if bs.length ≤ b.WritableBytes then
        Buffer.mk (b.data.take b.writePos ++ bs ++ b.data.drop (b.writePos + bs.length))
          b.readPos (b.writePos + bs.length)
      else
        Buffer.Append (bs.drop b.WritableBytes)
          (Buffer.mk (b.data.take b.writePos ++ bs.take b.WritableBytes)
            b.readPos b.data.length) := rfl
  rw [hstep]
  split
  case isTrue hc =>
    unfold Buffer.WritableBytes at hc
    have hroom : b.writePos + bs.length ≤ b.data.length := by omega
    obtain ⟨hwa, hwl⟩ := writeAt_readable b.data b.readPos b.writePos bs h1 hroom
    refine ⟨⟨?_, ?_⟩, ?_, ?_⟩
    · dsimp only
      omega
    · dsimp only
      rw [hwl]
      omega
    · rw [Buffer.readable_mk]
      exact hwa
    · dsimp only [Buffer.ReadableBytes]
      omega
  case isFalse hc =>
    unfold Buffer.WritableBytes at hc
    unfold Buffer.WritableBytes
    set w := b.data.length - b.writePos with hw
    set bmid : Buffer :=
      Buffer.mk (b.data.take b.writePos ++ bs.take w) b.readPos b.data.length
      with hbmid
    have hmidlen : bmid.data.length = b.data.length := by
      rw [hbmid]
      dsimp only
      simp
      omega
    have hmidwf : bmid.wf := by
      rw [hbmid, Buffer.wf_mk]
      constructor
      · omega
      · simp
        omega
    have hmidread : bmid.readable = b.readable ++ bs.take w := by
      rw [hbmid, Buffer.readable_mk]
      rw [List.drop_append_of_le_length (by simp; omega)]
      rw [List.take_append_eq_append_take]
      have hlen1 : ((b.data.take b.writePos).drop b.readPos).length =
          b.writePos - b.readPos := by simp; omega
      rw [hlen1]
      have he1 : b.data.length - b.readPos - (b.writePos - b.readPos) = w := by omega
      rw [he1, List.drop_take, List.take_take, List.take_take, Nat.min_self,
        Nat.min_eq_right (by omega : b.writePos - b.readPos ≤ b.data.length - b.readPos)]
      rfl
    obtain ⟨hawf, haread, harb⟩ := Buffer.Append_spec bmid (bs.drop w) hmidwf
    refine ⟨hawf, ?_, ?_⟩
    · rw [haread, hmidread, List.append_assoc, List.take_append_drop]
    · rw [harb]
      have hmidrb : bmid.ReadableBytes = b.ReadableBytes + w := by
        rw [hbmid]
        dsimp only [Buffer.ReadableBytes]
        omega
      rw [hmidrb]
      simp
      omega

theorem Buffer.HasWritten_wf (b : Buffer) (len : Nat) (h : b.wf)
    (hl : len ≤ b.WritableBytes) : (b.HasWritten len).wf := by
  obtain ⟨h1, h2⟩ := h
  unfold Buffer.WritableBytes at hl
  unfold Buffer.HasWritten Buffer.wf
  dsimp only
  omega

theorem Buffer.Retrieve_wf (b : Buffer) (len : Nat) (h : b.wf)
    (hl : len ≤ b.ReadableBytes) : (b.Retrieve len).wf := by
  obtain ⟨h1, h2⟩ := h
  unfold Buffer.ReadableBytes at hl
  unfold Buffer.Retrieve Buffer.wf
  split <;> dsimp only <;> omega

theorem Buffer.Retrieve_all_resets (b : Buffer) (h : b.wf) :
    (b.Retrieve b.ReadableBytes).readPos = 0 ∧
      (b.Retrieve b.ReadableBytes).writePos = 0 := by
  obtain ⟨h1, h2⟩ := h
  unfold Buffer.Retrieve Buffer.ReadableBytes
  split
  case isTrue => exact ⟨rfl, rfl⟩
  case isFalse hf => exact absurd (by omega) hf

theorem Buffer.RetrieveUntil_wf (b : Buffer) (e : Nat) (h : b.wf)
    (h1 : b.readPos ≤ e) (h2 : e ≤ b.writePos) : (b.RetrieveUntil e).wf := by
  unfold Buffer.RetrieveUntil
  refine Buffer.Retrieve_wf b _ h ?_
  unfold Buffer.ReadableBytes
  omega

theorem Buffer.RetrieveAll_wf (b : Buffer) : b.RetrieveAll.wf := by
  unfold Buffer.RetrieveAll Buffer.wf
  dsimp only
  omega

theorem Buffer.WriteFd_wf (b : Buffer) (n : Nat) (h : b.wf)
    (hl : n ≤ b.ReadableBytes) : (b.WriteFd n).wf := by
  obtain ⟨h1, h2⟩ := h
  unfold Buffer.ReadableBytes at hl
  unfold Buffer.WriteFd Buffer.wf
  split <;> dsimp only <;> omega

theorem Buffer.WriteFd_all_resets (b : Buffer) (h : b.wf) :
    (b.WriteFd b.ReadableBytes).readPos = 0 ∧
      (b.WriteFd b.ReadableBytes).writePos = 0 := by
  obtain ⟨h1, h2⟩ := h
  unfold Buffer.WriteFd Buffer.ReadableBytes
  split
  case isTrue => exact ⟨rfl, rfl⟩
  case isFalse hf => exact absurd (by omega) hf

/-- C2: every public Buffer operation (`Append`, `EnsureWriteable`,
`HasWritten` with `len ≤ WritableBytes`, `Retrieve` with
`len ≤ ReadableBytes`, `RetrieveUntil`, `RetrieveAll`, `RetrieveAllToStr`,
`ReadFd`, `WriteFd`) preserves `0 ≤ readPos ≤ writePos ≤ buffer size`, and
after any retrieval that consumes all readable bytes both cursors are 0. -/
theorem c2_buffer_ops_preserve_invariant (b : Buffer) (h : b.wf) :
    (∀ s, (b.Append s).wf) ∧
    (∀ len, (b.EnsureWriteable len).wf) ∧
    (∀ len, len ≤ b.WritableBytes → (b.HasWritten len).wf) ∧
    (∀ len, len ≤ b.ReadableBytes → (b.Retrieve len).wf) ∧
    (∀ e, b.readPos ≤ e → e ≤ b.writePos → (b.RetrieveUntil e).wf) ∧
    b.RetrieveAll.wf ∧
    b.RetrieveAllToStr.2.wf ∧
    (∀ bs, (b.ReadFd bs).wf) ∧
    (∀ n, n ≤ b.ReadableBytes → (b.WriteFd n).wf) ∧
    ((b.Retrieve b.ReadableBytes).readPos = 0 ∧
      (b.Retrieve b.ReadableBytes).writePos = 0) ∧
    (b.RetrieveAll.readPos = 0 ∧ b.RetrieveAll.writePos = 0) ∧
    (b.RetrieveAllToStr.2.readPos = 0 ∧ b.RetrieveAllToStr.2.writePos = 0) ∧
    ((b.WriteFd b.ReadableBytes).readPos = 0 ∧
      (b.WriteFd b.ReadableBytes).writePos = 0) := by
  refine ⟨fun s => (Buffer.Append_spec b s h).1,
    fun len => (Buffer.EnsureWriteable_spec b len h).1,
    fun len hl => Buffer.HasWritten_wf b len h hl,
    fun len hl => Buffer.Retrieve_wf b len h hl,
    fun e h1 h2 => Buffer.RetrieveUntil_wf b e h h1 h2,
    Buffer.RetrieveAll_wf b,
    Buffer.RetrieveAll_wf b,
    fun bs => (Buffer.ReadFd_spec b bs h).1,
    fun n hl => Buffer.WriteFd_wf b n h hl,
    Buffer.Retrieve_all_resets b h,
    ⟨rfl, rfl⟩,
    ⟨rfl, rfl⟩,
    Buffer.WriteFd_all_resets b h⟩

theorem c2_buffer_invariant_witness :
    ((Buffer.mk ['a', 'b', 'c', 'd'] 1 3).Retrieve 2).readPos = 0 ∧
      ((Buffer.mk ['a', 'b', 'c', 'd'] 1 3).Retrieve 2).writePos = 0 := by
  have h := c2_buffer_ops_preserve_invariant (Buffer.mk ['a', 'b', 'c', 'd'] 1 3)
    (by decide)
  exact h.2.2.2.2.2.2.2.2.2.1

/-- C6: a `ReadFd` call delivers the read bytes through two regions (the
writable tail plus a 64 KiB scratch, hence the capacity bound); whatever
exceeded the tail is appended (growing the buffer), and on a non-negative
return of `n` bytes the readable region is extended by exactly those `n`
bytes, in order. -/
theorem c6_readfd_scatter_extends_readable (b : Buffer) (bs : List Char)
    (h : b.wf) (hcap : bs.length ≤ b.WritableBytes + 65536) :
    (b.ReadFd bs).readable = b.readable ++ bs ∧
    (b.ReadFd bs).ReadableBytes = b.ReadableBytes + bs.length ∧
    (b.ReadFd bs).wf := by
  obtain ⟨hwf, hread, hrb⟩ := Buffer.ReadFd_spec b bs h
  exact ⟨hread, hrb, hwf⟩

theorem c6_readfd_witness :
    ((Buffer.mk ['x', 'y'] 0 1).ReadFd ['a', 'b', 'c']).readable =
      ['x', 'a', 'b', 'c'] := by
  have h := c6_readfd_scatter_extends_readable (Buffer.mk ['x', 'y'] 0 1)
    ['a', 'b', 'c'] (by decide) (by decide)
  rw [h.1]
  decide

/-- C8: when an append needs `need` bytes but fewer are writable,
`MakeSpace_` either reallocates the storage to `writePos + need + 1` (when
even the prependable space would not suffice) or compacts the readable
bytes to offset 0 keeping the storage size; in both cases the readable
content is unchanged. -/
theorem c8_makespace_growth_policy (b : Buffer) (need : Nat) (h : b.wf)
    (hlt : b.WritableBytes < need) :
    (b.WritableBytes + b.PrependableBytes < need →
      (b.MakeSpace_ need).data.length = b.writePos + need + 1 ∧
      (b.MakeSpace_ need).readPos = b.readPos ∧
      (b.MakeSpace_ need).writePos = b.writePos) ∧
    (need ≤ b.WritableBytes + b.PrependableBytes →
      (b.MakeSpace_ need).readPos = 0 ∧
      (b.MakeSpace_ need).writePos = b.ReadableBytes ∧
      (b.MakeSpace_ need).data.length = b.data.length) ∧
    (b.MakeSpace_ need).readable = b.readable ∧
    b.EnsureWriteable need = b.MakeSpace_ need := by
  obtain ⟨h1, h2⟩ := h
  refine ⟨?_, ?_, (Buffer.MakeSpace_spec b need ⟨h1, h2⟩).2.1, ?_⟩
  · intro hc
    unfold Buffer.MakeSpace_
    rw [if_pos hc]
    refine ⟨?_, rfl, rfl⟩
    dsimp only
    rw [listResize_length]
  · intro hc
    unfold Buffer.MakeSpace_
    rw [if_neg (by omega)]
    refine ⟨rfl, rfl, ?_⟩
    dsimp only
    unfold Buffer.WritableBytes Buffer.PrependableBytes at hc
    simp
    omega
  · unfold Buffer.EnsureWriteable
    rw [if_pos hlt]

theorem c8_makespace_witness :
    ((Buffer.mk ['a', 'b', 'c'] 1 3).MakeSpace_ 4).data.length = 3 + 4 + 1 ∧
      ((Buffer.mk ['a', 'b', 'c'] 2 3).MakeSpace_ 2).readPos = 0 := by
  have ha := c8_makespace_growth_policy (Buffer.mk ['a', 'b', 'c'] 1 3) 4
    (by decide) (by decide)
  have hb := c8_makespace_growth_policy (Buffer.mk ['a', 'b', 'c'] 2 3) 2
    (by decide) (by decide)
  exact ⟨(ha.1 (by decide)).1, (hb.2.1 (by decide)).1⟩

theorem HttpRequest.ParseHeader_state (req : HttpRequest) (line : List Char) :
    (req.ParseHeader_ line).state = req.state := by
  unfold HttpRequest.ParseHeader_
  split <;> rfl

theorem parseLoop_true_of_state_ne
    (verify : List Char → List Char → Bool → Bool) :
    ∀ (fuel : Nat) (req : HttpRequest) (buff : Buffer),
      req.state ≠ PARSE_STATE.REQUEST_LINE →
      (parseLoop verify fuel req buff).1 = true := by
  intro fuel
  induction fuel with
  | zero =>
    intro req buff _
    rfl
  | succ n ih =>
    intro req buff h
    rw [parseLoop]
    split
    · rfl
    · cases hf : findCRLF buff.readable with
      | none => rfl
      | some idx =>
        cases hs : req.state with
        | REQUEST_LINE => exact absurd hs h
        | HEADERS =>
          dsimp only
          split
          · split
            · exact ih _ _ (by intro hc; cases hc)
            · exact ih _ _ (by intro hc; cases hc)
          · refine ih _ _ ?_
            rw [HttpRequest.ParseHeader_state, hs]
            intro hc
            cases hc
        | BODY =>
          dsimp only
          exact ih _ _ (by intro hc; cases hc)
        | FINISH => rfl

theorem HttpRequest.ParsePathE_sound (req req2 : HttpRequest)
    (h : req.ParsePathE = some req2) : req.ParsePath_ = req2 := by
  unfold HttpRequest.ParsePathE at h
  unfold HttpRequest.ParsePath_
  split at h
  next hp =>
    injection h with h2
    rw [if_pos hp]
    exact h2
  next hp =>
    rw [if_neg hp]
    cases hk : lastIndexOfSlash req.path with
    | none =>
      rw [hk] at h
      simp at h
    | some k =>
      rw [hk] at h
      dsimp only at h ⊢
      split at h
      next hd =>
        rw [if_pos hd]
        injection h with h2
      next hd =>
        rw [if_neg hd]
        injection h with h2

theorem parseLoopE_true_of_state_ne
    (verify : List Char → List Char → Bool → Bool) :
    ∀ (fuel : Nat) (req : HttpRequest) (buff : Buffer),
      req.state ≠ PARSE_STATE.REQUEST_LINE →
      ∃ req2 buff2,
        parseLoopE verify fuel req buff = some (true, req2, buff2) := by
  intro fuel
  induction fuel with
  | zero =>
    intro req buff _
    exact ⟨req, buff, rfl⟩
  | succ n ih =>
    intro req buff h
    rw [parseLoopE]
    split
    · exact ⟨req, buff, rfl⟩
    · cases hf : findCRLF buff.readable with
      | none => exact ⟨req, buff, rfl⟩
      | some idx =>
        cases hs : req.state with
        | REQUEST_LINE => exact absurd hs h
        | HEADERS =>
          dsimp only
          split
          · split
            · exact ih _ _ (by intro hc; cases hc)
            · exact ih _ _ (by intro hc; cases hc)
          · refine ih _ _ ?_
            rw [HttpRequest.ParseHeader_state, hs]
            intro hc
            cases hc
        | BODY =>
          dsimp only
          exact ih _ _ (by intro hc; cases hc)
        | FINISH => exact ⟨req, buff, rfl⟩

/-- C10 counterexample: a non-empty buffer whose complete request line
matches the regex with an accepted method — so neither of the claim's two
false cases — on which `parse` nevertheless does not return true: the path
`x` holds no `/` and `ParsePath_`'s `substr(npos)` throws
`std::out_of_range` out of the call (`parseE` = `none`, originating in the
request-line step). -/
theorem c10_parse_throws_counterexample :
    c10ThrowInput.ReadableBytes ≠ 0 ∧
    HttpRequest.parseE noVerify HttpRequest.Init c10ThrowInput = none ∧
    (∃ idx, findCRLF c10ThrowInput.readable = some idx ∧
      HttpRequest.Init.ParseRequestLineE (c10ThrowInput.readable.take idx) =
        none) := by
  refine ⟨by decide, by decide, 14, by decide, by decide⟩

/-- C10 (amended): `parse` returns false only when the buffer has no
readable bytes or a complete request line is present and fails (regex
mismatch or unsupported method); the call throws `std::out_of_range`
(returning neither true nor false) exactly when, still in REQUEST_LINE
state, a complete request line is accepted but its path holds no `/`; every
other input — including an incomplete request cut off before the blank
line — returns true, so a true return does not imply `FINISH`. -/
theorem c10_parse_false_or_throw :
    (∀ (verify : List Char → List Char → Bool → Bool) (req : HttpRequest)
        (buff : Buffer) (res : Bool × HttpRequest × Buffer),
      HttpRequest.parseE verify req buff = some res → res.1 = false →
        buff.ReadableBytes = 0 ∨
          (req.state = PARSE_STATE.REQUEST_LINE ∧
            ∃ idx, findCRLF buff.readable = some idx ∧
              ∃ req1, req.ParseRequestLineE (buff.readable.take idx) =
                some (false, req1))) ∧
    (∀ (verify : List Char → List Char → Bool → Bool) (req : HttpRequest)
        (buff : Buffer),
      HttpRequest.parseE verify req buff = none →
        req.state = PARSE_STATE.REQUEST_LINE ∧ buff.ReadableBytes ≠ 0 ∧
          ∃ idx, findCRLF buff.readable = some idx ∧
            req.ParseRequestLineE (buff.readable.take idx) = none) ∧
    ((HttpRequest.parseE noVerify HttpRequest.Init c10Input).map Prod.fst =
        some true ∧
      (HttpRequest.parseE noVerify HttpRequest.Init c10Input).map
        (fun r => r.2.1.state) ≠ some PARSE_STATE.FINISH) := by
  refine ⟨?_, ?_, by decide, by decide⟩
  · intro verify req buff res hsome hfalse
    unfold HttpRequest.parseE at hsome
    by_cases hrb : buff.ReadableBytes = 0
    · exact Or.inl hrb
    · rw [if_neg hrb] at hsome
      by_cases hs : req.state = PARSE_STATE.REQUEST_LINE
      · refine Or.inr ⟨hs, ?_⟩
        rw [parseLoopE] at hsome
        rw [if_neg (by simp [hrb, hs])] at hsome
        cases hf : findCRLF buff.readable with
        | none =>
          rw [hf] at hsome
          injection hsome with h2
          rw [← h2] at hfalse
          simp at hfalse
        | some idx =>
          rw [hf, hs] at hsome
          dsimp only at hsome
          cases hp : req.ParseRequestLineE (buff.readable.take idx) with
          | none =>
            rw [hp] at hsome
            simp at hsome
          | some pr =>
            cases pr with
            | mk ok req1 =>
              rw [hp] at hsome
              cases ok with
              | true =>
                obtain ⟨req2, buff2, he⟩ := parseLoopE_true_of_state_ne verify
                  buff.ReadableBytes { req1 with state := PARSE_STATE.HEADERS }
                  (buff.Retrieve (idx + 2)) (by intro hc; cases hc)
                simp [he] at hsome
                rw [← hsome] at hfalse
                simp at hfalse
              | false =>
                refine ⟨idx, rfl, req1, ?_⟩
                rw [hp]
      · obtain ⟨req2, buff2, he⟩ :=
          parseLoopE_true_of_state_ne verify (buff.ReadableBytes + 1) req buff hs
        rw [he] at hsome
        injection hsome with h2
        rw [← h2] at hfalse
        simp at hfalse
  · intro verify req buff hnone
    unfold HttpRequest.parseE at hnone
    by_cases hrb : buff.ReadableBytes = 0
    · rw [if_pos hrb] at hnone
      simp at hnone
    · rw [if_neg hrb] at hnone
      by_cases hs : req.state = PARSE_STATE.REQUEST_LINE
      · refine ⟨hs, hrb, ?_⟩
        rw [parseLoopE] at hnone
        rw [if_neg (by simp [hrb, hs])] at hnone
        cases hf : findCRLF buff.readable with
        | none =>
          rw [hf] at hnone
          simp at hnone
        | some idx =>
          rw [hf, hs] at hnone
          dsimp only at hnone
          cases hp : req.ParseRequestLineE (buff.readable.take idx) with
          | none => exact ⟨idx, rfl, hp⟩
          | some pr =>
            cases pr with
            | mk ok req1 =>
              rw [hp] at hnone
              cases ok with
              | true =>
                obtain ⟨req2, buff2, he⟩ := parseLoopE_true_of_state_ne verify
                  buff.ReadableBytes { req1 with state := PARSE_STATE.HEADERS }
                  (buff.Retrieve (idx + 2)) (by intro hc; cases hc)
                simp [he] at hnone
              | false => simp at hnone
      · obtain ⟨req2, buff2, he⟩ :=
          parseLoopE_true_of_state_ne verify (buff.ReadableBytes + 1) req buff hs
        rw [he] at hnone
        simp at hnone

theorem c10_parse_throw_witness :
    HttpRequest.Init.state = PARSE_STATE.REQUEST_LINE ∧
      c10ThrowInput.ReadableBytes ≠ 0 ∧
      ∃ idx, findCRLF c10ThrowInput.readable = some idx ∧
        HttpRequest.Init.ParseRequestLineE (c10ThrowInput.readable.take idx) =
          none :=
  c10_parse_false_or_throw.2.1 noVerify HttpRequest.Init c10ThrowInput
    (by decide)

/-- C1: the claim requires BODY → FINISH only after consuming exactly
`Content-Length` bytes. The code instead consumes one CRLF-framed line: on
the failing input (`Content-Length: 5`, buffered body `ab\r\ncd\r\n`) the
parser reaches FINISH with body `ab` — 2 bytes, cut at the first CRLF —
leaving `cd\r\n` unread, instead of the 5 advertised bytes `ab\r\nc`. -/
theorem c1_body_is_one_line_not_content_length_bytes :
    (HttpRequest.parse noVerify HttpRequest.Init c1Input).2.1.state =
      PARSE_STATE.FINISH ∧
    alGet? (HttpRequest.parse noVerify HttpRequest.Init c1Input).2.1.header
      "Content-Length".data = some "5".data ∧
    (HttpRequest.parse noVerify HttpRequest.Init c1Input).2.1.body = "ab".data ∧
    (HttpRequest.parse noVerify HttpRequest.Init c1Input).2.1.body.length ≠ 5 ∧
    (HttpRequest.parse noVerify HttpRequest.Init c1Input).2.2.readable =
      "cd\r\n".data := by
  refine ⟨by decide, by decide, by decide, by decide, by decide⟩

/-- C7 counterexample: the non-empty malformed header line `nocolonline`
does not make the parse fail — `parse` returns true, runs to FINISH, and the
line is silently skipped (the header map stays empty). -/
theorem c7_malformed_header_not_rejected_counterexample :
    (HttpRequest.parse noVerify HttpRequest.Init c7Input).1 = true ∧
    (HttpRequest.parse noVerify HttpRequest.Init c7Input).2.1.state =
      PARSE_STATE.FINISH ∧
    (HttpRequest.parse noVerify HttpRequest.Init c7Input).2.1.header = [] := by
  refine ⟨by decide, by decide, by decide⟩

/-- C7 amended: a non-empty header line that does not match
`^([^:]*): ?(.*)$` is silently ignored — `ParseHeader_` leaves the request
unchanged, and once the parser is past the request line it can never make
`parse` return false. -/
theorem c7_malformed_header_silently_skipped (req : HttpRequest)
    (line : List Char) (hm : headerMatch line = none) :
    req.ParseHeader_ line = req ∧
    (req.state = PARSE_STATE.HEADERS →
      ∀ (verify : List Char → List Char → Bool → Bool) (fuel : Nat)
        (buff : Buffer), (parseLoop verify fuel req buff).1 = true) := by
  constructor
  · unfold HttpRequest.ParseHeader_
    rw [hm]
  · intro hs verify fuel buff
    refine parseLoop_true_of_state_ne verify fuel req buff ?_
    rw [hs]
    intro hc
    cases hc

theorem c7_malformed_header_witness :
    HttpRequest.Init.ParseHeader_ "nocolonline".data = HttpRequest.Init :=
  (c7_malformed_header_silently_skipped HttpRequest.Init "nocolonline".data
    (by decide)).1

/-- C5: the claim requires `%HH` to decode to the byte `16*hex(H1)+hex(H2)`,
so the value in `k=a%41b` should decode to `aAb`. The code instead writes
the decimal digits of the byte value back after the kept `%`: the stored
value is `a%65b` (65 = 0x41), not `aAb`. Splitting on `&`/`=` and the `+`
to space rewrite do work as claimed. -/
theorem c5_percent_escape_not_decoded :
    alGet? c5Req.ParseFromUrlencoded_.post "k".data = some "a%65b".data ∧
    some "a%65b".data ≠ some "aAb".data ∧
    alGet? c5ReqPlus.ParseFromUrlencoded_.post "x".data = some "1 2".data ∧
    alGet? c5ReqPlus.ParseFromUrlencoded_.post "y".data = some "3".data := by
  refine ⟨by decide, by decide, by decide, by decide⟩

/-- C3: the status cascade of `MakeResponse` — stat failure or a directory
gives 404, a non-world-readable file gives 403, an initial −1 becomes 200,
any other initial code survives — followed by `ErrorHtml_`: codes 400, 403,
404, 500 remap the served path to the canonical error page, falling back to
status 404 when that page is itself missing. -/
theorem c3_makeresponse_status_and_error_page (fs : String → Option FileStat)
    (srcDir path : String) (code : Int) :
    (fs (srcDir ++ path) = none → statCode fs srcDir path code = 404) ∧
    (∀ st, fs (srcDir ++ path) = some st → st.isDir = true →
      statCode fs srcDir path code = 404) ∧
    (∀ st, fs (srcDir ++ path) = some st → st.isDir = false →
      st.othRead = false → statCode fs srcDir path code = 403) ∧
    (∀ st, fs (srcDir ++ path) = some st → st.isDir = false →
      st.othRead = true → code = -1 → statCode fs srcDir path code = 200) ∧
    (∀ st, fs (srcDir ++ path) = some st → st.isDir = false →
      st.othRead = true → code ≠ -1 → statCode fs srcDir path code = code) ∧
    (∀ ep, CODE_PATH (statCode fs srcDir path code) = some ep →
      (MakeResponse fs srcDir path code).2 = ep ∧
      (fs (srcDir ++ ep) = none → (MakeResponse fs srcDir path code).1 = 404) ∧
      (fs (srcDir ++ ep) ≠ none →
        (MakeResponse fs srcDir path code).1 = statCode fs srcDir path code)) ∧
    (CODE_PATH (statCode fs srcDir path code) = none →
      MakeResponse fs srcDir path code = (statCode fs srcDir path code, path)) ∧
    (CODE_PATH 400 = some "/400.html" ∧ CODE_PATH 403 = some "/403.html" ∧
      CODE_PATH 404 = some "/404.html" ∧ CODE_PATH 500 = some "/500.html" ∧
      ∀ c : Int, c ≠ 400 → c ≠ 403 → c ≠ 404 → c ≠ 500 → CODE_PATH c = none) := by
  refine ⟨?_, ?_, ?_, ?_, ?_, ?_, ?_, ?_, ?_, ?_, ?_, ?_⟩
  · intro h
    simp [statCode, h]
  · intro st h hd
    simp [statCode, h, hd]
  · intro st h hd ho
    simp [statCode, h, hd, ho]
  · intro st h hd ho hc
    simp [statCode, h, hd, ho, hc]
  · intro st h hd ho hc
    simp [statCode, h, hd, ho, hc]
  · intro ep hep
    unfold MakeResponse ErrorHtml_
    rw [hep]
    dsimp only
    by_cases hmiss : fs (srcDir ++ ep) = none
    · rw [if_pos hmiss]
      exact ⟨rfl, fun _ => rfl, fun hn => absurd hmiss hn⟩
    · rw [if_neg hmiss]
      exact ⟨rfl, fun hm => absurd hm hmiss, fun _ => rfl⟩
  · intro hnone
    unfold MakeResponse ErrorHtml_
    rw [hnone]
  · decide
  · decide
  · decide
  · decide
  · intro c h1 h2 h3 h4
    simp [CODE_PATH, h1, h2, h3, h4]

theorem c3_makeresponse_witness :
    statCode (fun _ => none) "/www" "/index.html" (-1) = 404 ∧
      MakeResponse (fun _ => none) "/www" "/index.html" (-1) = (404, "/404.html") := by
  have h := c3_makeresponse_status_and_error_page (fun _ => none) "/www"
    "/index.html" (-1)
  have h404 : statCode (fun _ => none) "/www" "/index.html" (-1) = 404 :=
    h.1 rfl
  obtain ⟨hp, hm, _⟩ := h.2.2.2.2.2.1 "/404.html" (by rw [h404]; decide)
  refine ⟨h404, ?_⟩
  have h1 := hm rfl
  rw [Prod.ext_iff]
  exact ⟨h1, hp⟩

/-- C4 counterexample: with the pool initialised to a single connection, a
second `GetConn` finds the idle queue empty and immediately returns the
null connection — it neither blocks on the semaphore nor avoids null. -/
theorem c4_getconn_null_counterexample :
    (SqlConnPool.Init [7]).GetConn.2.GetConn.1 = 0 := rfl

/-- C4 amended: `GetConn` never blocks. When the idle queue is empty it logs
a warning and returns null at once; otherwise it pops the front connection
under the mutex after `sem_wait`, and the result is non-null whenever the
pool holds no null connection. -/
theorem c4_getconn_pops_front_or_null (p : SqlConnPool) :
    (p.connQue = [] → p.GetConn = (0, p)) ∧
    (∀ c rest, p.connQue = c :: rest →
      p.GetConn = (c, ⟨rest, p.semId - 1⟩)) ∧
    ((∀ c ∈ p.connQue, c ≠ 0) → p.connQue ≠ [] → p.GetConn.1 ≠ 0) := by
  refine ⟨?_, ?_, ?_⟩
  · intro h
    unfold SqlConnPool.GetConn
    rw [h]
  · intro c rest h
    unfold SqlConnPool.GetConn
    rw [h]
  · intro hnz hne
    cases hq : p.connQue with
    | nil => exact absurd hq hne
    | cons c rest =>
      unfold SqlConnPool.GetConn
      rw [hq]
      dsimp only
      refine hnz c ?_
      rw [hq]
      exact List.mem_cons_self c rest

theorem c4_getconn_witness :
    (SqlConnPool.Init [7]).GetConn = (7, ⟨[], 0⟩) := by
  have h := c4_getconn_pops_front_or_null (SqlConnPool.Init [7])
  exact h.2.1 7 [] rfl

/-- C9: the name of the file opened by the roll branch of `Log::write` is
built from `toDay_`, which holds only the day of month, so it cannot be the
claimed `<path>/YYYY_MM_DD<suffix>` with the current local date: rolling
from day 10 to day 11 with `path=/log`, `suffix=.log` opens
`/log//log.0000_00_10.log.log`, whose length alone rules out the
`<path>/YYYY_MM_DD<suffix>` layout. -/
theorem c9_log_roll_name_not_datestamped :
    logRollNeeded 10 11 0 50000 = true ∧
    logNewFile "/log" ".log" 10 11 0 50000 = "/log//log.0000_00_10.log.log" ∧
    (∀ mid : String, mid.length = 10 →
      logNewFile "/log" ".log" 10 11 0 50000 ≠ "/log/" ++ mid ++ ".log") := by
  refine ⟨by decide, by decide, ?_⟩
  intro mid hm heq
  have hlen := congrArg String.length heq
  have h1 : (logNewFile "/log" ".log" 10 11 0 50000).length = 28 := by decide
  have h2 : ("/log/" : String).length = 5 := by decide
  have h3 : (".log" : String).length = 4 := by decide
  rw [h1, String.length_append, String.length_append, h2, h3, hm] at hlen
  exact absurd hlen (by decide)

theorem c9_log_roll_witness :
    logNewFile "/log" ".log" 10 11 0 50000 ≠ "/log/" ++ "2026_10_11" ++ ".log" :=
  c9_log_roll_name_not_datestamped.2.2 "2026_10_11" (by decide)
